import Mathlib

/-!
Verification of the `oneapi-misc` benchmark sources against their
natural-language specification.

The development shallowly embeds the two programs the claims refer to:

* `src/recursive-fib.cpp` — the recursive Fibonacci benchmark with a
  load-balance tracker (`load_balance`), statistics aggregation
  (`calc_statistics`), an affinity-pinning scheduler observer
  (`pinning_observer`) and the driver read loop in `main`;
* `src/noploop.cpp` — the simpler workload driver, whose `main` contains
  the per-record `threads < 2` validation.

Machine integers are embedded as `Nat`/`Int` with explicit reduction
modulo `2 ^ 64` (C++ `std::uint64_t`, called `u64` in the sources) and
modulo `2 ^ 32` (C++ `unsigned` / `int`) at every operation where the
C++ type wraps.  C++ `double` values (`statistics::avg`,
`statistics::dev`) are modeled as exact rationals; the standard
deviation is represented by its square `devSq`, since `std::sqrt`
values are in general irrational.  Every concrete input used below is
chosen so that the corresponding `double` computation is exact, hence
the rational model is faithful at those points.
-/

/-- Modulus of C++ `std::uint64_t` (`u64` in the sources) arithmetic. -/
def U64 : Nat := 2 ^ 64

/-- Modulus of C++ `unsigned` / 32-bit `int` arithmetic. -/
def U32 : Nat := 2 ^ 32

/-- C++ conversion of a (signed, mathematically modeled) `int` value to
`u64`: reduction modulo `2 ^ 64`, landing in `[0, 2 ^ 64)`. -/
def intToU64 (x : Int) : Nat := (x % (U64 : Int)).toNat

/-- C++ conversion of a `u64` value to a 32-bit `int`: two's-complement
wrap modulo `2 ^ 32` (gcc/clang behavior for the narrowing conversion). -/
def u64ToInt (x : Nat) : Int :=
  if x % U32 < 2 ^ 31 then (x % U32 : Nat) else (x % U32 : Nat) - (U32 : Int)

/-- `parallel_fib` (src/recursive-fib.cpp:77-88): returns `n` if `n < 2`
(converted from `int` to the `u64` return type), otherwise the `u64` sum
of the two recursive calls spawned by `tbb::parallel_invoke`.  The
parallel join guarantees both children complete before the sum is formed,
so the returned value is the one computed by this recursion. -/
def parallel_fib (n : Int) : Nat :=
  if n < 2 then intToU64 n
  else (parallel_fib (n - 1) + parallel_fib (n - 2)) % U64
termination_by n.toNat
decreasing_by
  all_goals simp_wf
  all_goals omega

/-- `threads_created` (src/recursive-fib.cpp:106-112): the number of TBB
tasks spawned by `parallel_fib n`, computed in `u64` arithmetic. -/
def threads_created (n : Int) : Nat :=
  if n < 2 then 0
  else (2 + threads_created (n - 1) + threads_created (n - 2)) % U64
termination_by n.toNat
decreasing_by
  all_goals simp_wf
  all_goals omega

/-- `load_balance::take_measurement` (src/recursive-fib.cpp:139-143):
`tbb[i]++` on the per-slot `u64` counter vector, where `i` is the calling
thread's arena slot index.  Out-of-range writes cannot occur in the runs
considered below (`List.set` leaves the list unchanged out of range). -/
def take_measurement (tbb : List Nat) (i : Nat) : List Nat :=
  tbb.set i ((tbb.getD i 0 + 1) % U64)

/-- `parallel_fib_lb` (src/recursive-fib.cpp:90-102).  `σ` assigns to
every invocation — identified by its path in the recursion tree
(`false` = the `n - 1` branch, `true` = the `n - 2` branch) — the arena
slot (`tbb::this_task_arena::current_thread_index()`) on which it runs.
In the real program two concurrently running tasks necessarily run on
distinct threads and therefore increment distinct slots, so every
increment lands exactly once and the final counter vector is determined
by `σ` alone; threading the vector sequentially through the two children
is therefore a faithful model of every completed concurrent run. -/
def parallel_fib_lb (σ : List Bool → Nat) (p : List Bool) (n : Int)
    (tbb : List Nat) : Nat × List Nat :=
  if n < 2 then (intToU64 n, tbb)
  else
    let t1 := take_measurement tbb (σ p)
    let r1 := parallel_fib_lb σ (false :: p) (n - 1) t1
    let r2 := parallel_fib_lb σ (true :: p) (n - 2) r1.2
    ((r1.1 + r2.1) % U64, r2.2)
termination_by n.toNat
decreasing_by
  all_goals simp_wf
  all_goals omega

/-- The number of `take_measurement` calls performed by
`parallel_fib_lb n`: exactly one per recursive invocation with `n ≥ 2`
(src/recursive-fib.cpp:96 executes once per such invocation, before the
two children are spawned). -/
def lb_measurements (n : Int) : Nat :=
  if n < 2 then 0 else 1 + lb_measurements (n - 1) + lb_measurements (n - 2)
termination_by n.toNat
decreasing_by
  all_goals simp_wf
  all_goals omega

/-- `struct statistics` (src/recursive-fib.cpp:52-55).  `min`/`max` are
`u64`; `avg` and the standard deviation are `double`, modeled as exact
rationals.  The deviation is carried as its square `devSq`: the code
stores `dev = sqrt devSq`, and `sqrt` is strictly monotone on
nonnegative arguments, so every comparison of `dev` values transfers. -/
structure statistics where
  min : Nat
  max : Nat
  avg : ℚ
  devSq : ℚ
  deriving DecidableEq

/-- `std::accumulate(v.begin(), v.end(), 0)` as called at
src/recursive-fib.cpp:166: the accumulator type is `int` (the literal
`0`), so each `u64` element is added by converting the accumulator to
`u64`, adding modulo `2 ^ 64`, and narrowing the result back to a 32-bit
`int`. -/
def accumulate_int (v : List Nat) : Int :=
  v.foldl (fun acc x => u64ToInt ((intToU64 acc + x) % U64)) 0

/-- `calc_statistics` (src/recursive-fib.cpp:159-174).  On an empty
sample the code dereferences `std::min_element(v.begin(), v.end())`,
i.e. the end iterator — undefined behavior, no value is produced —
modeled as `none`.  On `x :: xs` the fold with initial value `x` is
exactly `*std::min_element` / `*std::max_element`; `avg` divides the
`int`-seeded `std::accumulate` by `count = v.size()`, and the deviation
accumulation (`dev_lambda`, seeded with the `double` `0.0`) is exact
rational arithmetic here. -/
def calc_statistics : List Nat → Option statistics
  | [] => none
  | x :: xs =>
    let count : ℚ := ((x :: xs).length : ℚ)
    let avg : ℚ := ((accumulate_int (x :: xs) : Int) : ℚ) / count
    some { min := xs.foldl Nat.min x
           max := xs.foldl Nat.max x
           avg := avg
           devSq := ((x :: xs).foldl
             (fun acc y => acc + (((y : Nat) : ℚ) - avg) * (((y : Nat) : ℚ) - avg)) 0) / count }

/-- `operator<<(std::ostream&, const load_balance&)`
(src/recursive-fib.cpp:145-157), up to the statistics it prints:
`std::remove_copy(..., 0)` copies the nonzero counters into `v`;
`std::fill_n` then appends `allowed - v.size()` zeros (a nonpositive
count appends nothing, hence `Int.toNat`); finally `calc_statistics`
runs on the padded vector. -/
def put_load_balance (allowed : Int) (tbb : List Nat) : Option statistics :=
  let v := tbb.filter (fun x => x != 0)
  calc_statistics (v ++ List.replicate (allowed - (v.length : Int)).toNat 0)

/-- `pinning_observer::on_scheduler_entry` (src/recursive-fib.cpp:122-131):
given the current value of the shared `std::atomic<unsigned>` counter,
the joining thread is pinned to hardware unit `counter % nprocs` and the
counter is post-incremented (wrapping as `unsigned`).  Returns
(assigned unit, new counter value). -/
def on_scheduler_entry (nprocs : Nat) (counter : Nat) : Nat × Nat :=
  (counter % nprocs, (counter + 1) % U32)

/-- Counter value observed by the `k`-th join event (0-indexed): the
observer's counter starts at `0` (src/recursive-fib.cpp:114-120) and
each join advances it by `on_scheduler_entry`. -/
def pin_counter (nprocs : Nat) : Nat → Nat
  | 0 => 0
  | k + 1 => (on_scheduler_entry nprocs (pin_counter nprocs k)).2

/-- Hardware unit assigned to the `k`-th join event (0-indexed). -/
def pin_assignment (nprocs k : Nat) : Nat :=
  (on_scheduler_entry nprocs (pin_counter nprocs k)).1

/-- One input record of the recursive-fib driver
(src/recursive-fib.cpp:192-194): `<n> <nthread>` with `int fib_num` and
`unsigned nthread`. -/
structure RFRecord where
  n : Int
  nthread : Nat
  deriving DecidableEq

/-- One observable event of the recursive-fib driver: a result line.
The line also carries wall-clock time, throughput and the load-balance
statistics; those depend on the clock and the scheduler and are omitted
here (the `jobs` field is printed after a `u64 → double` conversion,
which is exact for every value relevant below). -/
inductive RFEvent where
  | line (n : Int) (result : Nat) (nthread : Nat) (jobs : Nat)
  deriving DecidableEq

/-- Body of the recursive-fib driver loop (src/recursive-fib.cpp:194-218)
for one successfully parsed record: `tests` repetitions each compute
`parallel_fib` and `threads_created` and emit one line.  The loop
performs no validation of `nthread` whatsoever. -/
def rf_step (tests : Nat) (r : RFRecord) : List RFEvent :=
  List.replicate tests (RFEvent.line r.n (parallel_fib r.n) r.nthread (threads_created r.n))

/-- The recursive-fib driver read loop over the successfully parsed
records of standard input. -/
def rf_run (tests : Nat) (recs : List RFRecord) : List RFEvent :=
  recs.flatMap (rf_step tests)

/-- One input record of the noploop driver (src/noploop.cpp:98-102):
`<method> <threads> <iterations>`. -/
structure NopRecord where
  method : Int
  threads : Int
  iterations : Nat
  deriving DecidableEq

/-- One observable event of the noploop driver: the `threads < 2`
diagnostic, the invalid-method diagnostic, or a result line (whose
timing fields are again omitted). -/
inductive NopEvent where
  | threadsError
  | methodError
  | line (method : Int) (threads : Int) (iterations : Nat)
  deriving DecidableEq

/-- Body of the noploop driver loop (src/noploop.cpp:102-143) for one
parsed record: records with `threads < 2` are reported and skipped
(`continue`), then an out-of-range `method` is reported and skipped,
otherwise `count` repetitions each emit one line. -/
def nop_step (count : Nat) (r : NopRecord) : List NopEvent :=
  if r.threads < 2 then [NopEvent.threadsError]
  else if r.method = 0 ∨ r.method = 1 ∨ r.method = 2 ∨ r.method = 3 then
    List.replicate count (NopEvent.line r.method r.threads r.iterations)
  else [NopEvent.methodError]

/-- The noploop driver read loop over the successfully parsed records. -/
def nop_run (count : Nat) (recs : List NopRecord) : List NopEvent :=
  recs.flatMap (nop_step count)

/-- Numeral form of `U64`, for closing concrete arithmetic goals. -/
theorem U64_val : U64 = 18446744073709551616 := by norm_num [U64]

/-- Numeral form of `U32`, for closing concrete arithmetic goals. -/
theorem U32_val : U32 = 4294967296 := by norm_num [U32]

/-- Numeral form of `U64` as an integer. -/
theorem U64_int : ((U64 : Nat) : Int) = 18446744073709551616 := by rw [U64_val]; norm_num

/-- Adding two already-reduced summands inside a `Nat` remainder. -/
theorem add_mod_mod3 (a x y M : Nat) : (a + x % M + y % M) % M = (a + x + y) % M :=
  ((Nat.ModEq.refl a).add (Nat.mod_modEq x M)).add (Nat.mod_modEq y M)

/-- Fibonacci numbers up to index 93 fit in a `u64`. -/
theorem fib_lt_U64 {n : Nat} (h : n ≤ 93) : Nat.fib n < U64 :=
  lt_of_le_of_lt (Nat.fib_mono h) (by rw [U64_val]; decide)

/-- `parallel_fib` computes the Fibonacci numbers reduced modulo `2 ^ 64`. -/
theorem parallel_fib_natCast : ∀ n : Nat, parallel_fib (n : Int) = Nat.fib n % U64 := by
  have aux : ∀ k : Nat, ∀ n : Nat, n ≤ k → parallel_fib (n : Int) = Nat.fib n % U64 := by
    intro k
    induction k with
    | zero =>
      intro n hn
      have h0 : n = 0 := by omega
      subst h0
      rw [parallel_fib.eq_def, if_pos (by norm_num)]
      simp [intToU64]
    | succ k ih =>
      intro n hn
      match n with
      | 0 =>
        rw [parallel_fib.eq_def, if_pos (by norm_num)]
        simp [intToU64]
      | 1 =>
        rw [parallel_fib.eq_def, if_pos (by norm_num)]
        rw [Nat.mod_eq_of_lt (by rw [U64_val]; norm_num)]
        simp [intToU64, U64_int]
      | m + 2 =>
        rw [parallel_fib.eq_def, if_neg (by push_cast; omega)]
        have e1 : ((m + 2 : Nat) : Int) - 1 = ((m + 1 : Nat) : Int) := by push_cast; ring
        have e2 : ((m + 2 : Nat) : Int) - 2 = ((m : Nat) : Int) := by push_cast; ring
        rw [e1, e2, ih (m + 1) (by omega), ih m (by omega), Nat.fib_add_two]
        conv_rhs => rw [Nat.add_mod]
        rw [Nat.add_comm (Nat.fib m % U64)]
  exact fun n => aux n n le_rfl

/-- `parallel_fib` agrees with the mathematical Fibonacci sequence up to
index 93 (the largest index whose Fibonacci number fits in a `u64`). -/
theorem parallel_fib_exact {n : Nat} (h : n ≤ 93) : parallel_fib (n : Int) = Nat.fib n := by
  rw [parallel_fib_natCast]
  exact Nat.mod_eq_of_lt (fib_lt_U64 h)

/-- Closed form of `threads_created` in `u64` arithmetic:
`2 * (fib (n + 1) - 1)` reduced modulo `2 ^ 64`. -/
theorem threads_created_natCast :
    ∀ n : Nat, threads_created (n : Int) = (2 * (Nat.fib (n + 1) - 1)) % U64 := by
  have aux : ∀ k : Nat, ∀ n : Nat, n ≤ k →
      threads_created (n : Int) = (2 * (Nat.fib (n + 1) - 1)) % U64 := by
    intro k
    induction k with
    | zero =>
      intro n hn
      have h0 : n = 0 := by omega
      subst h0
      rw [threads_created.eq_def, if_pos (by norm_num)]
      simp
    | succ k ih =>
      intro n hn
      match n with
      | 0 =>
        rw [threads_created.eq_def, if_pos (by norm_num)]
        simp
      | 1 =>
        rw [threads_created.eq_def, if_pos (by norm_num)]
        simp
      | m + 2 =>
        rw [threads_created.eq_def, if_neg (by push_cast; omega)]
        have e1 : ((m + 2 : Nat) : Int) - 1 = ((m + 1 : Nat) : Int) := by push_cast; ring
        have e2 : ((m + 2 : Nat) : Int) - 2 = ((m : Nat) : Int) := by push_cast; ring
        rw [e1, e2, ih (m + 1) (by omega), ih m (by omega), add_mod_mod3]
        have hA : Nat.fib (m + 1 + 1) = Nat.fib (m + 2) := by norm_num
        have hB : Nat.fib (m + 2 + 1) = Nat.fib (m + 1) + Nat.fib (m + 2) := by
          have e3 : m + 2 + 1 = (m + 1) + 2 := by omega
          rw [e3, Nat.fib_add_two]
        have h1 : 1 ≤ Nat.fib (m + 1) := Nat.fib_pos.mpr (by omega)
        have h2 : 1 ≤ Nat.fib (m + 2) := Nat.fib_pos.mpr (by omega)
        congr 1
        rw [hA, hB]
        omega
  exact fun n => aux n n le_rfl

/-- Up to `n = 91` the task count does not overflow, so the closed form
holds exactly. -/
theorem threads_created_exact {n : Nat} (h : n ≤ 91) :
    threads_created (n : Int) = 2 * (Nat.fib (n + 1) - 1) := by
  rw [threads_created_natCast]
  apply Nat.mod_eq_of_lt
  have h1 : Nat.fib (n + 1) ≤ Nat.fib 92 := Nat.fib_mono (by omega)
  have h2 : 2 * (Nat.fib 92 - 1) < U64 := by rw [U64_val]; decide
  omega

/-- `threads_created` counts two spawned tasks per measured invocation:
it is twice `lb_measurements`, in `u64` arithmetic. -/
theorem threads_created_eq_two_mul_meas :
    ∀ n : Int, threads_created n = (2 * lb_measurements n) % U64 := by
  have aux : ∀ k : Nat, ∀ n : Int, n.toNat ≤ k →
      threads_created n = (2 * lb_measurements n) % U64 := by
    intro k
    induction k with
    | zero =>
      intro n hn
      have hlt : n < 2 := by omega
      rw [threads_created.eq_def, if_pos hlt, lb_measurements.eq_def, if_pos hlt]
      simp
    | succ k ih =>
      intro n hn
      by_cases hlt : n < 2
      · rw [threads_created.eq_def, if_pos hlt, lb_measurements.eq_def, if_pos hlt]
        simp
      · rw [threads_created.eq_def, if_neg hlt]
        conv_rhs => rw [lb_measurements.eq_def]
        rw [if_neg hlt, ih (n - 1) (by omega), ih (n - 2) (by omega), add_mod_mod3]
        congr 1
        ring
  exact fun n => aux n.toNat n le_rfl

/-- `lb_measurements` of a value below 2 (in particular of a negative
driver input) is zero. -/
theorem lb_measurements_base {n : Int} (h : n < 2) : lb_measurements n = 0 := by
  rw [lb_measurements.eq_def, if_pos h]

/-- Subtracting the overwritten entry undoes a `List.set` on the sum. -/
theorem sum_set_getD :
    ∀ (l : List Nat) (i a : Nat), i < l.length → (l.set i a).sum + l.getD i 0 = l.sum + a := by
  intro l
  induction l with
  | nil => intro i a h; simp at h
  | cons x xs ih =>
    intro i a h
    cases i with
    | zero => simp [List.set]; omega
    | succ j =>
      simp only [List.set, List.sum_cons, List.getD_cons_succ]
      have := ih j a (by simpa using h)
      omega

/-- Every entry of a `Nat` list is bounded by the list sum. -/
theorem getD_le_sum : ∀ (l : List Nat) (i : Nat), l.getD i 0 ≤ l.sum := by
  intro l
  induction l with
  | nil => intro i; simp
  | cons x xs ih =>
    intro i
    cases i with
    | zero => simp
    | succ j =>
      have := ih j
      simp only [List.getD_cons_succ, List.sum_cons]
      omega

/-- `take_measurement` does not change the number of slots. -/
theorem take_measurement_length (l : List Nat) (i : Nat) :
    (take_measurement l i).length = l.length := by
  simp [take_measurement]

/-- An in-range, non-overflowing `take_measurement` adds exactly one to
the total of the counters. -/
theorem take_measurement_sum (l : List Nat) (i : Nat) (hi : i < l.length)
    (hs : l.getD i 0 + 1 < U64) : (take_measurement l i).sum = l.sum + 1 := by
  have h := sum_set_getD l i ((l.getD i 0 + 1) % U64) hi
  simp only [take_measurement]
  rw [Nat.mod_eq_of_lt hs] at h ⊢
  omega

/-- Core load-balance invariant: a completed `parallel_fib_lb` run whose
slot schedule stays in range and whose total increment count does not
overflow adds exactly `lb_measurements n` to the counter total and
preserves the number of slots. -/
theorem parallel_fib_lb_sum_aux (σ : List Bool → Nat) :
    ∀ (k : Nat) (n : Int), n.toNat ≤ k → ∀ (p : List Bool) (tbb : List Nat),
      (∀ q, σ q < tbb.length) → tbb.sum + lb_measurements n < U64 →
      (parallel_fib_lb σ p n tbb).2.sum = tbb.sum + lb_measurements n ∧
      (parallel_fib_lb σ p n tbb).2.length = tbb.length := by
  intro k
  induction k with
  | zero =>
    intro n hn p tbb hσ hU
    have hlt : n < 2 := by omega
    rw [parallel_fib_lb.eq_def, if_pos hlt, lb_measurements_base hlt]
    simp
  | succ k ih =>
    intro n hn p tbb hσ hU
    by_cases hlt : n < 2
    · rw [parallel_fib_lb.eq_def, if_pos hlt, lb_measurements_base hlt]
      simp
    · rw [parallel_fib_lb.eq_def, if_neg hlt]
      have hm : lb_measurements n = 1 + lb_measurements (n - 1) + lb_measurements (n - 2) := by
        rw [lb_measurements.eq_def, if_neg hlt]
      have hi : σ p < tbb.length := hσ p
      have hgetD : tbb.getD (σ p) 0 ≤ tbb.sum := getD_le_sum tbb (σ p)
      have ht1sum : (take_measurement tbb (σ p)).sum = tbb.sum + 1 :=
        take_measurement_sum tbb (σ p) hi (by omega)
      have ht1len : (take_measurement tbb (σ p)).length = tbb.length :=
        take_measurement_length tbb (σ p)
      have hσ1 : ∀ q, σ q < (take_measurement tbb (σ p)).length := by
        rw [ht1len]; exact hσ
      have hU1 : (take_measurement tbb (σ p)).sum + lb_measurements (n - 1) < U64 := by
        rw [ht1sum]; omega
      obtain ⟨hs1, hl1⟩ := ih (n - 1) (by omega) (false :: p) _ hσ1 hU1
      have hσ2 : ∀ q,
          σ q < (parallel_fib_lb σ (false :: p) (n - 1) (take_measurement tbb (σ p))).2.length := by
        rw [hl1, ht1len]; exact hσ
      have hU2 :
          (parallel_fib_lb σ (false :: p) (n - 1) (take_measurement tbb (σ p))).2.sum
            + lb_measurements (n - 2) < U64 := by
        rw [hs1, ht1sum]; omega
      obtain ⟨hs2, hl2⟩ := ih (n - 2) (by omega) (true :: p) _ hσ2 hU2
      constructor
      · simp only []
        rw [hs2, hs1, ht1sum, hm]
        ring
      · simp only []
        rw [hl2, hl1, ht1len]

/-- Attaching the load-balance tracker never changes the computed value:
the first component of `parallel_fib_lb` is `parallel_fib`, for every
schedule, path, and counter state. -/
theorem parallel_fib_lb_fst_aux (σ : List Bool → Nat) :
    ∀ (k : Nat) (n : Int), n.toNat ≤ k → ∀ (p : List Bool) (tbb : List Nat),
      (parallel_fib_lb σ p n tbb).1 = parallel_fib n := by
  intro k
  induction k with
  | zero =>
    intro n hn p tbb
    have hlt : n < 2 := by omega
    rw [parallel_fib_lb.eq_def, if_pos hlt, parallel_fib.eq_def, if_pos hlt]
  | succ k ih =>
    intro n hn p tbb
    by_cases hlt : n < 2
    · rw [parallel_fib_lb.eq_def, if_pos hlt, parallel_fib.eq_def, if_pos hlt]
    · rw [parallel_fib_lb.eq_def, if_neg hlt]
      conv_rhs => rw [parallel_fib.eq_def]
      rw [if_neg hlt]
      simp only []
      rw [ih (n - 1) (by omega), ih (n - 2) (by omega)]

/-- The observer counter before the `k`-th join is `k` wrapped as a
32-bit `unsigned`. -/
theorem pin_counter_eq (U : Nat) : ∀ k : Nat, pin_counter U k = k % U32 := by
  intro k
  induction k with
  | zero => simp [pin_counter]
  | succ k ih =>
    rw [pin_counter, on_scheduler_entry, ih]
    rw [U32_val]
    omega

/-- The unit assigned to the `k`-th join is `(k mod 2 ^ 32) mod nprocs`. -/
theorem pin_assignment_eq (U k : Nat) : pin_assignment U k = (k % U32) % U := by
  rw [pin_assignment, on_scheduler_entry, pin_counter_eq]

/-- C2 (amended): the job-count function `threads_created` returns `0`
for every input below 2, and for `n ≥ 2` satisfies the recurrence
`calls(n) = 2 + calls(n-1) + calls(n-2)` in `u64` arithmetic, i.e.
reduced modulo `2 ^ 64`; without the reduction the recurrence holds
exactly for all `2 ≤ n ≤ 91` (the first `u64` overflow is at `n = 92`);
in particular `calls(0) = calls(1) = 0`, `calls(2) = 2`,
`calls(5) = 14`. -/
theorem claim2_job_count_recurrence :
    (∀ n : Int, n < 2 → threads_created n = 0) ∧
    (∀ n : Int, 2 ≤ n →
      threads_created n = (2 + threads_created (n - 1) + threads_created (n - 2)) % U64) ∧
    (∀ m : Nat, m ≤ 89 →
      threads_created ((m : Int) + 2)
        = 2 + threads_created ((m : Int) + 1) + threads_created (m : Int)) ∧
    threads_created 0 = 0 ∧ threads_created 1 = 0 ∧
    threads_created 2 = 2 ∧ threads_created 5 = 14 := by
  refine ⟨?_, ?_, ?_, ?_, ?_, ?_, ?_⟩
  · intro n h
    rw [threads_created.eq_def, if_pos h]
  · intro n h
    conv_lhs => rw [threads_created.eq_def]
    rw [if_neg (by omega : ¬ n < 2)]
  · intro m hm
    have c2 : ((m : Int) + 2) = ((m + 2 : Nat) : Int) := by push_cast; ring
    have c1 : ((m : Int) + 1) = ((m + 1 : Nat) : Int) := by push_cast; ring
    rw [c2, c1, threads_created_exact (show m + 2 ≤ 91 by omega),
      threads_created_exact (show m + 1 ≤ 91 by omega),
      threads_created_exact (show m ≤ 91 by omega)]
    have hB : Nat.fib (m + 2 + 1) = Nat.fib (m + 1) + Nat.fib (m + 1 + 1) := by
      have e3 : m + 2 + 1 = (m + 1) + 2 := by omega
      rw [e3, Nat.fib_add_two]
    have h1 : 1 ≤ Nat.fib (m + 1) := Nat.fib_pos.mpr (by omega)
    have h2 : 1 ≤ Nat.fib (m + 1 + 1) := Nat.fib_pos.mpr (by omega)
    omega
  · simp [threads_created]
  · simp [threads_created]
  · simp [threads_created, U64_val]
  · simp [threads_created, U64_val]

/-- C2 witness: the clauses of `claim2_job_count_recurrence`
instantiated at concrete inputs, hypotheses discharged by computation. -/
theorem claim2_witness :
    ((-3 : Int) < 2 ∧ threads_created (-3) = 0) ∧
    ((2 : Int) ≤ 7 ∧
      threads_created 7 = (2 + threads_created 6 + threads_created 5) % U64) ∧
    (3 ≤ 89 ∧
      threads_created (((3 : Nat) : Int) + 2) = 2 + threads_created (((3 : Nat) : Int) + 1)
        + threads_created ((3 : Nat) : Int)) :=
  ⟨⟨by norm_num, claim2_job_count_recurrence.1 (-3) (by norm_num)⟩,
    ⟨by norm_num, claim2_job_count_recurrence.2.1 7 (by norm_num)⟩,
    ⟨by norm_num, claim2_job_count_recurrence.2.2.1 3 (by norm_num)⟩⟩

/-- C2 counterexample: at `n = 92` the `u64` task counter wraps, so the
recurrence read over the mathematical integers fails there. -/
theorem claim2_cex : threads_created 92 ≠ 2 + threads_created 91 + threads_created 90 := by
  have e92 : (92 : Int) = ((92 : Nat) : Int) := by norm_num
  have e91 : (91 : Int) = ((91 : Nat) : Int) := by norm_num
  have e90 : (90 : Int) = ((90 : Nat) : Int) := by norm_num
  rw [e92, e91, e90, threads_created_natCast 92,
    threads_created_exact (show 91 ≤ 91 by norm_num),
    threads_created_exact (show 90 ≤ 91 by norm_num), U64_val]
  decide

/-- C3 (amended): `parallel_fib` returns `n` for `0 ≤ n < 2` and
otherwise the `u64` (modulo `2 ^ 64`) sum of the two recursive calls; it
therefore equals the standard Fibonacci sequence reduced modulo
`2 ^ 64`, and agrees with it exactly for all `0 ≤ n ≤ 93` (the first
`u64` overflow is at `n = 94`); in particular `fib(0) = 0`,
`fib(1) = 1`, `fib(10) = 55`. -/
theorem claim3_fib_value :
    (∀ n : Int, 0 ≤ n → n < 2 → parallel_fib n = n.toNat) ∧
    (∀ n : Int, 2 ≤ n →
      parallel_fib n = (parallel_fib (n - 1) + parallel_fib (n - 2)) % U64) ∧
    (∀ n : Nat, parallel_fib (n : Int) = Nat.fib n % U64) ∧
    (∀ n : Nat, n ≤ 93 → parallel_fib (n : Int) = Nat.fib n) ∧
    parallel_fib 0 = 0 ∧ parallel_fib 1 = 1 ∧ parallel_fib 10 = 55 := by
  refine ⟨?_, ?_, parallel_fib_natCast, fun n h => parallel_fib_exact h, ?_, ?_, ?_⟩
  · intro n h0 h2
    rw [parallel_fib.eq_def, if_pos h2]
    simp only [intToU64]
    rw [U64_int]
    omega
  · intro n h
    conv_lhs => rw [parallel_fib.eq_def]
    rw [if_neg (by omega : ¬ n < 2)]
  · simp [parallel_fib, intToU64]
  · simp [parallel_fib, intToU64, U64_int]
  · simp [parallel_fib, intToU64, U64_val, U64_int]

/-- C3 witness: the clauses of `claim3_fib_value` instantiated at
concrete inputs, hypotheses discharged by computation. -/
theorem claim3_witness :
    ((0 : Int) ≤ 1 ∧ (1 : Int) < 2 ∧ parallel_fib 1 = (1 : Int).toNat) ∧
    ((2 : Int) ≤ 6 ∧ parallel_fib 6 = (parallel_fib 5 + parallel_fib 4) % U64) ∧
    (10 ≤ 93 ∧ parallel_fib ((10 : Nat) : Int) = Nat.fib 10) :=
  ⟨⟨by norm_num, by norm_num, claim3_fib_value.1 1 (by norm_num) (by norm_num)⟩,
    ⟨by norm_num, claim3_fib_value.2.1 6 (by norm_num)⟩,
    ⟨by norm_num, claim3_fib_value.2.2.2.1 10 (by norm_num)⟩⟩

/-- C3 counterexample: at `n = 94` the `u64` value wraps, so
`parallel_fib` no longer equals the standard Fibonacci sequence. -/
theorem claim3_cex : parallel_fib 94 ≠ Nat.fib 94 := by
  have e94 : (94 : Int) = ((94 : Nat) : Int) := by norm_num
  rw [e94, parallel_fib_natCast 94, U64_val]
  decide

/-- C10 (amended): the jobs metric has the closed form
`threads_created(n) = 2 * (fib(n+1) - 1)` in `u64` arithmetic (reduced
modulo `2 ^ 64`); the un-reduced closed form holds exactly for all
`n ≤ 91` (first overflow at `n = 92`), and the metric is always even. -/
theorem claim10_closed_form :
    (∀ n : Nat, threads_created (n : Int) = (2 * (Nat.fib (n + 1) - 1)) % U64) ∧
    (∀ n : Nat, n ≤ 91 → threads_created (n : Int) = 2 * (Nat.fib (n + 1) - 1)) ∧
    (∀ n : Int, 2 ∣ threads_created n) := by
  refine ⟨threads_created_natCast, fun n h => threads_created_exact h, ?_⟩
  intro n
  by_cases h : n < 2
  · rw [threads_created.eq_def, if_pos h]
    exact Dvd.intro 0 rfl
  · have hn : n = ((n.toNat : Nat) : Int) := by omega
    rw [hn, threads_created_natCast]
    exact (Nat.dvd_mod_iff (by rw [U64_val]; norm_num)).mpr (dvd_mul_right 2 _)

/-- C10 witness: the closed form at `n = 10` (the driver input of the
end-to-end example), hypotheses discharged by computation. -/
theorem claim10_witness :
    10 ≤ 91 ∧ threads_created ((10 : Nat) : Int) = 2 * (Nat.fib 11 - 1) ∧
      2 ∣ threads_created ((10 : Nat) : Int) :=
  ⟨by norm_num, claim10_closed_form.2.1 10 (by norm_num), claim10_closed_form.2.2 _⟩

/-- C10 counterexample: at `n = 92` the task counter wraps modulo
`2 ^ 64`, so the closed form over the mathematical integers fails. -/
theorem claim10_cex : threads_created 92 ≠ 2 * (Nat.fib 93 - 1) := by
  have e92 : (92 : Int) = ((92 : Nat) : Int) := by norm_num
  rw [e92, threads_created_natCast 92, U64_val]
  decide

/-- C1 (amended): in every completed instrumented run on a freshly
zero-initialized tracker whose schedule stays within the slot range
(and whose increment count fits in a `u64`), the sum of the slot
counters equals the number of recursive invocations with `n ≥ 2`
(`lb_measurements n`, one increment per such invocation, none lost or
duplicated); `threads_created n` counts the two spawned subtasks of
each such invocation, so the counter sum is half the jobs metric:
`threads_created n = (2 * sum) mod 2 ^ 64`, not `sum` itself. -/
theorem claim1_sum_of_counters (σ : List Bool → Nat) (slots : Nat) (n : Int)
    (hσ : ∀ q, σ q < slots) (hn : lb_measurements n < U64) :
    ((parallel_fib_lb σ [] n (List.replicate slots 0)).2).sum = lb_measurements n ∧
    threads_created n = (2 * lb_measurements n) % U64 := by
  have h := parallel_fib_lb_sum_aux σ n.toNat n le_rfl [] (List.replicate slots 0)
    (by simpa using hσ) (by simpa using hn)
  exact ⟨by simpa using h.1, threads_created_eq_two_mul_meas n⟩

/-- C1 witness: a run of `fib(3)` on two zero-initialized slots with
every invocation scheduled on slot 0. -/
theorem claim1_witness :
    (∀ q : List Bool, (fun _ : List Bool => 0) q < 2) ∧ lb_measurements 3 < U64 ∧
    ((parallel_fib_lb (fun _ => 0) [] 3 (List.replicate 2 0)).2).sum = lb_measurements 3 ∧
    threads_created 3 = (2 * lb_measurements 3) % U64 :=
  ⟨fun _ => by norm_num, by rw [U64_val]; simp [lb_measurements],
    claim1_sum_of_counters (fun _ => 0) 2 3 (fun _ => by norm_num)
      (by rw [U64_val]; simp [lb_measurements])⟩

/-- C1 counterexample: a completed instrumented run of `fib(2)` on a
zero-initialized two-slot tracker records exactly one increment (the
root invocation), while `threads_created 2 = 2`; the sum of counters is
not `calls(n)`. -/
theorem claim1_cex :
    ((parallel_fib_lb (fun _ => 0) [] 2 (List.replicate 2 0)).2).sum ≠ threads_created 2 := by
  simp [parallel_fib_lb, take_measurement, threads_created, intToU64, U64_val]

/-- C9: attaching the load-balance tracker changes no computed result:
for every input, schedule, call path and counter state,
`parallel_fib_lb` returns the same value as `parallel_fib`. -/
theorem claim9_lb_preserves_result (σ : List Bool → Nat) (p : List Bool) (n : Int)
    (tbb : List Nat) : (parallel_fib_lb σ p n tbb).1 = parallel_fib n :=
  parallel_fib_lb_fst_aux σ n.toNat n le_rfl p tbb

/-- C4: evaluation of `calc_statistics` at the failing input
`[2147483648]` (a single counter holding `2 ^ 31`; counter sums of this
size arise for Fibonacci indices `n ≥ 46`).  Because the
`std::accumulate` at src/recursive-fib.cpp:166 is seeded with the `int`
literal `0`, the `u64` sum `2 ^ 31` is narrowed to the 32-bit value
`-2147483648`, so the code reports `avg = -2147483648` instead of the
claimed `sum/count = 2147483648`, and a standard deviation of
`2 ^ 32` (devSq `= 2 ^ 64`) instead of the claimed `0` for an all-equal
sample.  Every `double` operation involved is exact at this input, so
the rational model is faithful here. -/
theorem claim4_avg_truncated :
    calc_statistics [2147483648] =
      some { min := 2147483648, max := 2147483648, avg := -2147483648,
             devSq := 18446744073709551616 } := by
  have h : accumulate_int [2147483648] = -2147483648 := by decide
  simp only [calc_statistics, h]
  norm_num

/-- C6: evaluation of `calc_statistics` at the empty sample.  The code
performs no emptiness check and no error report: it dereferences
`std::min_element(v.begin(), v.end())`, i.e. the end iterator —
undefined behavior producing no valid `statistics` value, modeled as
`none`. -/
theorem claim6_empty_sample : calc_statistics [] = none := rfl

/-- C5 (amended): the load-balance output first excludes zero slots,
pads the filtered sample back to length `allowed` with zeros, and then
computes the statistics over the *padded* length (`count = v.size()`
inside `calc_statistics` is the padded size, which equals `allowed`
whenever at most `allowed` slots were nonzero) — not over the
non-padded distinct-slot count. -/
theorem claim5_padded_denominator (allowed : Int) (tbb : List Nat) (w : List Nat)
    (hw : w = tbb.filter (fun x => x != 0)
      ++ List.replicate (allowed - ((tbb.filter (fun x => x != 0)).length : Int)).toNat 0)
    (h1 : ((tbb.filter (fun x => x != 0)).length : Int) ≤ allowed)
    (h2 : 1 ≤ allowed) :
    (w.length : Int) = allowed ∧
    put_load_balance allowed tbb = calc_statistics w ∧
    (put_load_balance allowed tbb).isSome = true ∧
    ∀ s, put_load_balance allowed tbb = some s →
      s.avg = ((accumulate_int w : Int) : ℚ) / ((allowed : Int) : ℚ) := by
  have hlen : (w.length : Int) = allowed := by
    subst hw
    push_cast [List.length_append, List.length_replicate]
    omega
  have hput : put_load_balance allowed tbb = calc_statistics w := by rw [hw]; rfl
  obtain ⟨a, t, rfl⟩ : ∃ a t, w = a :: t := by
    cases w with
    | nil => exfalso; simp at hlen; omega
    | cons a t => exact ⟨a, t, rfl⟩
  refine ⟨hlen, hput, ?_, ?_⟩
  · rw [hput]
    simp [calc_statistics]
  · intro s hs
    rw [hput] at hs
    simp only [calc_statistics, Option.some.injEq] at hs
    rw [← hs]
    simp only []
    have hcast : (((a :: t).length : Nat) : ℚ) = ((allowed : Int) : ℚ) := by
      exact_mod_cast hlen
    rw [hcast]

/-- C5 witness: `allowed = 1` with no nonzero slot pads to the sample
`[0]`; hypotheses discharged by computation. -/
theorem claim5_witness :
    (([0] : List Nat) = ([] : List Nat).filter (fun x => x != 0)
      ++ List.replicate ((1 - (((([] : List Nat).filter (fun x => x != 0)).length : Int))).toNat) 0) ∧
    ((([] : List Nat).filter (fun x => x != 0)).length : Int) ≤ 1 ∧ (1 : Int) ≤ 1 ∧
    ((([0] : List Nat).length : Int) = 1 ∧
      put_load_balance 1 [] = calc_statistics [0] ∧
      (put_load_balance 1 []).isSome = true ∧
      ∀ s, put_load_balance 1 [] = some s →
        s.avg = ((accumulate_int [0] : Int) : ℚ) / (((1 : Int) : Int) : ℚ)) :=
  ⟨by decide, by decide, by norm_num,
    claim5_padded_denominator 1 [] [0] (by decide) (by decide) (by norm_num)⟩

/-- C5 counterexample: for `tbb = [2, 0]` and `allowed = 2` the code
pads the filtered sample `[2]` back to `[2, 0]` and prints
`avg = 2 / 2 = 1` (denominator: the padded length), whereas the claimed
mean over the non-padded distinct-slot count `[2]` is `2 / 1 = 2`. -/
theorem claim5_cex :
    put_load_balance 2 [2, 0] = some { min := 0, max := 2, avg := 1, devSq := 1 } ∧
    ((accumulate_int (([2, 0] : List Nat).filter (fun x => x != 0)) : Int) : ℚ)
      / ((((([2, 0] : List Nat).filter (fun x => x != 0)).length : Nat) : Nat) : ℚ) = 2 ∧
    (1 : ℚ) ≠ 2 := by
  refine ⟨?_, ?_, by norm_num⟩
  · have e : put_load_balance 2 [2, 0] = calc_statistics [2, 0] := by rfl
    have h : accumulate_int [2, 0] = 2 := by decide
    rw [e]
    simp only [calc_statistics, h]
    norm_num [Nat.min_def, Nat.max_def]
  · have e : (([2, 0] : List Nat).filter (fun x => x != 0)) = [2] := by decide
    have h : accumulate_int [2] = 2 := by decide
    rw [e, h]
    norm_num

/-- C7 (amended): the noploop driver reports a record whose worker
count is below 2 and skips it (`continue`), and the read loop then
processes the remaining records unchanged; the recursive-fib driver
performs no such validation (see the counterexample). -/
theorem claim7_noploop_skips (count : Nat) (pre post : List NopRecord) (r : NopRecord)
    (h : r.threads < 2) :
    nop_run count (pre ++ r :: post)
      = nop_run count pre ++ NopEvent.threadsError :: nop_run count post := by
  simp [nop_run, nop_step, h]

/-- C7 witness: a `threads = 1` record between two valid records is
reported and skipped while both neighbors are still processed. -/
theorem claim7_witness :
    ((⟨0, 1, 5⟩ : NopRecord).threads < 2) ∧
    nop_run 1 ([⟨1, 2, 9⟩] ++ (⟨0, 1, 5⟩ : NopRecord) :: [⟨2, 3, 7⟩])
      = nop_run 1 [⟨1, 2, 9⟩] ++ NopEvent.threadsError :: nop_run 1 [⟨2, 3, 7⟩] :=
  ⟨by norm_num, claim7_noploop_skips 1 [⟨1, 2, 9⟩] [⟨2, 3, 7⟩] ⟨0, 1, 5⟩ (by norm_num)⟩

/-- C7 counterexample: the recursive-fib driver (the benchmark driver
of the specified core) runs a record with `nthread = 1 < 2` normally —
one result line is emitted (`fib(1) = 1`, `jobs = 0`) — instead of
reporting and skipping it. -/
theorem claim7_cex : rf_run 1 [⟨1, 1⟩] = [RFEvent.line 1 1 1 0] := by
  simp [rf_run, rf_step, parallel_fib, threads_created, intToU64, U64_int]

/-- C8 (amended): the `k`-th join event (0-indexed) is assigned
hardware unit `(k mod 2 ^ 32) mod U` — the shared counter is a 32-bit
`unsigned` and wraps — which lies in `[0, U)` and equals `k mod U` for
every `k < 2 ^ 32`. -/
theorem claim8_round_robin (U k : Nat) (hU : 0 < U) :
    pin_assignment U k = (k % U32) % U ∧ pin_assignment U k < U ∧
    (k < U32 → pin_assignment U k = k % U) := by
  refine ⟨pin_assignment_eq U k, ?_, ?_⟩
  · rw [pin_assignment_eq]
    exact Nat.mod_lt _ hU
  · intro hk
    rw [pin_assignment_eq, Nat.mod_eq_of_lt hk]

/-- C8 witness: with 4 hardware units the 5th join event is pinned to
unit `5 mod 4 = 1`. -/
theorem claim8_witness :
    0 < 4 ∧ 5 < U32 ∧ pin_assignment 4 5 = 5 % 4 ∧ pin_assignment 4 5 < 4 :=
  ⟨by norm_num, by rw [U32_val]; norm_num,
    (claim8_round_robin 4 5 (by norm_num)).2.2 (by rw [U32_val]; norm_num),
    (claim8_round_robin 4 5 (by norm_num)).2.1⟩

/-- C8 counterexample: after `2 ^ 32` joins the `unsigned` counter has
wrapped to 0, so with `U = 3` hardware units the `2 ^ 32`-th join is
assigned unit 0, not `2 ^ 32 mod 3 = 1`. -/
theorem claim8_cex : pin_assignment 3 (2 ^ 32) ≠ 2 ^ 32 % 3 := by
  rw [pin_assignment_eq, U32_val]
  norm_num
